import Mathlib

/-!
Verification of the spatelier media-ingestion core: a shallow embedding of
the job repository, storage adapters, download service, media tracker,
playlist tracker, job manager and worker sweep, with theorems settling the
spec claims about them.
-/

namespace Spatelier

/-! ## String utilities

Python `sub in s` is substring containment; `s.lower()` lowercases.
We mirror them executably on `List Char` / `String`. -/

/-- Bool-valued test that `p` is a leading segment of `l` (mirrors Python
`str.startswith` at the character-list level). -/
def charsStartsWith : List Char → List Char → Bool
  | [], _ => true
  | _ :: _, [] => false
  | a :: as, b :: bs => a == b && charsStartsWith as bs

/-- Bool-valued substring test: does `sub` occur contiguously inside `l`?
Mirrors Python `sub in s`. -/
def charsContains : List Char → List Char → Bool
  | [], sub => sub.isEmpty
  | l@(_ :: rest), sub => charsStartsWith sub l || charsContains rest sub

/-- Python `sub in s` on strings. -/
def strContains (s sub : String) : Bool :=
  charsContains s.toList sub.toList

/-- Python `s.lower()`: lowercase each character (ASCII as in
`Char.toLower`). -/
def pyLower (s : String) : String :=
  String.mk (s.data.map Char.toLower)

/-- Python `s.endswith(suffix)`. -/
def strEndsWith (s suf : String) : Bool :=
  charsStartsWith suf.toList.reverse s.toList.reverse

/-! ## Storage adapters (src/infrastructure/storage/storage_adapter.py)
and NAS detection (src/modules/video/services/download_service.py). -/

/-- The NAS indicator list from `NASStorageAdapter.__init__`
(storage_adapter.py:169-176). -/
def nas_indicators : List String :=
  ["/volumes/", "/mnt/", "nas", "network", "smb://", "nfs://"]

/-- `NASStorageAdapter.is_remote` (storage_adapter.py:178-181): substring
test of each indicator against the lowercased string form of the path. -/
def NASStorageAdapter.is_remote (path : String) : Bool :=
  nas_indicators.any (fun ind => strContains (pyLower path) ind)

/-- `LocalStorageAdapter.is_remote` (storage_adapter.py:114-116): always
false. -/
def LocalStorageAdapter.is_remote (_path : String) : Bool :=
  false

/-- `VideoDownloadService._is_nas_path` (download_service.py:552-565): the
same substring test with the indicator list written inline. -/
def VideoDownloadService._is_nas_path (path : String) : Bool :=
  ["/volumes/", "/mnt/", "nas", "network", "smb://", "nfs://"].any
    (fun ind => strContains (pyLower path) ind)

/-! ## Smart overwrite (download_service.py:746-810) -/

/-- One stream of the ffprobe `-show_streams` output, as consumed by
`_has_whisper_subtitles`: its `codec_type` and the `title` entry of its
`tags` map (`none` models an absent tags map or absent title key). -/
structure FfprobeStream where
  codec_type : String
  title : Option String
  deriving DecidableEq, Repr

/-- `VideoDownloadService._has_whisper_subtitles`
(download_service.py:774-810). The `probe` argument is the parsed ffprobe
stream list; `none` models every failure path (non-zero return code,
invalid JSON, timeout, exception), each of which returns `False`. -/
def VideoDownloadService._has_whisper_subtitles
    (probe : Option (List FfprobeStream)) : Bool :=
  match probe with
  | none => false
  | some streams =>
      streams.any (fun stream =>
        stream.codec_type == "subtitle" &&
          (strContains (pyLower (stream.title.getD "")) "whisper" ||
            strContains (pyLower (stream.title.getD "")) "whisperai"))

/-- The record returned by `_check_existing_video`
(download_service.py:748-753). -/
structure ExistingVideoCheck where
  file_exists : Bool
  has_subtitles : Bool
  should_overwrite : Bool
  reason : String
  deriving DecidableEq, Repr

/-- `VideoDownloadService._check_existing_video`
(download_service.py:746-772). `fileExists` is `file_path.exists()` and
`probe` the ffprobe data consumed by `_has_whisper_subtitles`. -/
def VideoDownloadService._check_existing_video
    (path : String) (fileExists : Bool)
    (probe : Option (List FfprobeStream)) : ExistingVideoCheck :=
  if !fileExists then
    { file_exists := false, has_subtitles := false, should_overwrite := true,
      reason := "File " ++ path ++ " does not exist" }
  else
    let has_subtitles := VideoDownloadService._has_whisper_subtitles probe
    if has_subtitles then
      { file_exists := true, has_subtitles := true, should_overwrite := false,
        reason := "File " ++ path ++ " exists with WhisperAI subtitles" }
    else
      { file_exists := true, has_subtitles := false, should_overwrite := true,
        reason := "File " ++ path ++ " exists without subtitles" }

/-! ## Download file resolution (download_service.py:271-294, 465-475) -/

/-- A directory entry of the working directory, as seen by
`_find_latest_download`: file name, size in bytes, modification time, and
whether `is_file()` holds. -/
structure DirFile where
  name : String
  size : Nat
  mtime : Nat
  isFile : Bool
  deriving DecidableEq, Repr

/-- `path.exists()` for a name inside the working directory, modelled as
membership in the directory listing. -/
def fileExistsIn (files : List DirFile) (name : String) : Bool :=
  files.any (fun f => f.name == name)

/-- The `max(candidates, key=mtime)` step of `_find_latest_download`:
Python `max` keeps the first element among equal maxima. -/
def maxByMtime : List DirFile → Option DirFile
  | [] => none
  | f :: fs => some (fs.foldl (fun cur g => if g.mtime > cur.mtime then g else cur) f)

/-- `VideoDownloadService._find_latest_download`
(download_service.py:465-475): collect `glob(f"*{ext}")` matches for each
configured extension, keep regular files, and return the most recently
modified one. -/
def VideoDownloadService._find_latest_download
    (files : List DirFile) (video_extensions : List String) : Option DirFile :=
  let candidates := video_extensions.foldl
    (fun acc ext => acc ++ files.filter (fun f => strEndsWith f.name ext)) []
  maxByMtime (candidates.filter (fun f => f.isFile))

/-- The output-file resolution performed by `_download_with_ytdlp` after
the engine returns (download_service.py:288-294): use the announced path
(`_resolve_downloaded_path`, `none` when the engine produced no info)
whenever it exists, otherwise fall back to `_find_latest_download`. -/
def VideoDownloadService.resolveAfterDownload
    (announced : Option String) (files : List DirFile)
    (video_extensions : List String) : Option String :=
  match announced with
  | some a =>
      if fileExistsIn files a then some a
      else (VideoDownloadService._find_latest_download files video_extensions).map
        (fun f => f.name)
  | none =>
      (VideoDownloadService._find_latest_download files video_extensions).map
        (fun f => f.name)

/-- The job outcome of `download_video` for a local (non-NAS) destination
once the engine has returned (download_service.py:127, 230, 255-263): a
resolved file leads to `COMPLETED`, no file leads to `FAILED` with error
message `"Download failed"`. -/
inductive JobOutcome where
  | completed
  | failedMsg (msg : String)
  deriving DecidableEq, Repr

/-- `download_video` local-path job status after the engine returns
(download_service.py:127, 230, 256-258). -/
def VideoDownloadService.downloadVideoLocalOutcome
    (announced : Option String) (files : List DirFile)
    (video_extensions : List String) : JobOutcome :=
  match VideoDownloadService.resolveAfterDownload announced files video_extensions with
  | some _ => JobOutcome.completed
  | none => JobOutcome.failedMsg "Download failed"

/-! ## Crash-safe move (storage_adapter.py:189-200,
download_service.py:573-583)

`NASStorageAdapter.move_file` and `_move_file_to_nas` are identical
`shutil.move` wrappers: create the destination's parent directories, call
`shutil.move`, return `True`; any exception is caught and `False` is
returned. `shutil.move` renames when source and destination are on the
same filesystem and otherwise copies (`copy2`) and then unlinks the
source; no fsync is issued anywhere. We model the primitive filesystem
calls the wrapper makes, with a fault parameter naming the primitive that
fails (if any). -/

/-- Primitive filesystem operations observable during `move_file`. -/
inductive FsOp where
  | mkdirParents
  | rename
  | copyData
  | fsyncCall
  | unlinkSrc
  deriving DecidableEq, Repr

/-- Which primitive call (if any) of a `move_file` run raises.
`copyFail` carries the partial destination content left behind. -/
inductive MoveFault where
  | noFault
  | mkdirFail
  | renameFail
  | copyFail (truncatedContent : Option String)
  | unlinkFail
  deriving DecidableEq, Repr

/-- The outcome of a `move_file` run: the returned Bool, the content at
the source and destination afterwards (`none` = absent), and the trace of
primitive calls issued. -/
structure MoveResult where
  success : Bool
  srcAfter : Option String
  dstAfter : Option String
  trace : List FsOp
  deriving DecidableEq, Repr

/-- `NASStorageAdapter.move_file` (storage_adapter.py:189-200) and
`VideoDownloadService._move_file_to_nas` (download_service.py:573-583):
mkdir the destination parent, then `shutil.move`; rename on the same
device, copy-then-unlink across devices; every exception is caught and
turned into a `False` return. -/
def move_file (src dst : Option String) (sameDevice : Bool)
    (fault : MoveFault) : MoveResult :=
  if fault == MoveFault.mkdirFail then
    { success := false, srcAfter := src, dstAfter := dst,
      trace := [FsOp.mkdirParents] }
  else
    match src with
    | none =>
        if sameDevice then
          { success := false, srcAfter := none, dstAfter := dst,
            trace := [FsOp.mkdirParents, FsOp.rename] }
        else
          { success := false, srcAfter := none, dstAfter := dst,
            trace := [FsOp.mkdirParents, FsOp.copyData] }
    | some content =>
        if sameDevice then
          if fault == MoveFault.renameFail then
            { success := false, srcAfter := some content, dstAfter := dst,
              trace := [FsOp.mkdirParents, FsOp.rename] }
          else
            { success := true, srcAfter := none, dstAfter := some content,
              trace := [FsOp.mkdirParents, FsOp.rename] }
        else
          match fault with
          | MoveFault.copyFail truncatedContent =>
              { success := false, srcAfter := some content,
                dstAfter := truncatedContent,
                trace := [FsOp.mkdirParents, FsOp.copyData] }
          | MoveFault.unlinkFail =>
              { success := false, srcAfter := some content,
                dstAfter := some content,
                trace := [FsOp.mkdirParents, FsOp.copyData, FsOp.unlinkSrc] }
          | _ =>
              { success := true, srcAfter := none, dstAfter := some content,
                trace := [FsOp.mkdirParents, FsOp.copyData, FsOp.unlinkSrc] }

/-! ## Processing-job repository (database/repository.py, not under src/) -/

/-- `ProcessingStatus` (database/models.py, not under src/; values pinned
by the schema in the spec and by src/tests/integration/test_job_timing.py). -/
inductive ProcessingStatus where
  | pending
  | processing
  | completed
  | failed
  deriving DecidableEq, Repr

/-- The timing-relevant columns of one `processing_jobs` row. Timestamps
are abstract clock readings (`Nat`); `duration_seconds` is their
difference. -/
structure JobRow where
  status : ProcessingStatus
  started_at : Option Nat
  completed_at : Option Nat
  duration_seconds : Option Nat
  error_message : Option String
  deriving DecidableEq, Repr

/-- Modelled from the spec: `ProcessingJobRepository.create`
(database/repository.py is not under src/). A new row is `pending` with
all timing fields null (spec section 4.3; asserted by
test_job_timing.py `test_job_creation_starts_pending`). -/
def ProcessingJobRepository.create_row : JobRow :=
  { status := ProcessingStatus.pending, started_at := none,
    completed_at := none, duration_seconds := none, error_message := none }

/-- Modelled from the spec: `ProcessingJobRepository.update_status`
(database/repository.py is not under src/). Field updates follow spec
section 4.1: `started_at` is set when the new status is `processing`; a
terminal new status sets `completed_at` and computes `duration_seconds`
from `started_at` when that exists. The function applies any requested
status without a transition guard, following the repository's own
integration tests (src/tests/integration/test_job_timing.py:164-178
accepts a direct pending-to-completed call and asserts the resulting
fields). `now` is the clock reading of the call. -/
def ProcessingJobRepository.update_status (job : JobRow)
    (new : ProcessingStatus) (error_message : Option String)
    (now : Nat) : JobRow :=
  let job := { job with
    status := new,
    error_message := match error_message with
      | some e => some e
      | none => job.error_message }
  match new with
  | ProcessingStatus.processing => { job with started_at := some now }
  | ProcessingStatus.completed =>
      { job with
        completed_at := some now
        duration_seconds := job.started_at.map (fun s => now - s) }
  | ProcessingStatus.failed =>
      { job with
        completed_at := some now
        duration_seconds := job.started_at.map (fun s => now - s) }
  | ProcessingStatus.pending => job

/-- A sequence of `update_status` calls applied in order: each element is
the requested status, the error message, and the clock reading. -/
def ProcessingJobRepository.runUpdates (job : JobRow)
    (calls : List (ProcessingStatus × Option String × Nat)) : JobRow :=
  calls.foldl
    (fun j c => ProcessingJobRepository.update_status j c.1 c.2.1 c.2.2) job

/-! ## Worker stuck-job handling (spatelier/core/worker.py, not under src/) -/

/-- Modelled from the spec: `Worker._check_job_output_success`
(spatelier/core/worker.py is not under src/): whether a video container of
one of the configured extensions exists under the job's `job_path`
(spec section 4.4; pinned by src/tests/unit/core/test_worker.py:305-319). -/
def Worker._check_job_output_success
    (jobFiles : List DirFile) (video_extensions : List String) : Bool :=
  jobFiles.any (fun f => f.isFile && video_extensions.any
    (fun ext => strEndsWith f.name ext))

/-- Modelled from the spec: the per-job body of `Worker._handle_stuck_jobs`
(spatelier/core/worker.py is not under src/): a stuck job with a
successfully-completed output transitions to `completed`; otherwise it
transitions to `failed` with an error reason containing `stuck`
(spec section 4.4; pinned by src/tests/unit/core/test_worker.py:288-303). -/
def Worker.handle_stuck_job
    (jobFiles : List DirFile) (video_extensions : List String) :
    ProcessingStatus × Option String :=
  if Worker._check_job_output_success jobFiles video_extensions then
    (ProcessingStatus.completed, none)
  else
    (ProcessingStatus.failed,
      some "Job stuck - worker process died or timed out")

/-! ## Media file tracking (src/domain/services/media_file_tracker.py) -/

/-- `Path(p).name`: the final component of a slash-separated path (the
characters after the last `/`, the whole string when there is none). -/
def pathName (p : String) : String :=
  String.mk (p.toList.foldl (fun acc c => if c = '/' then [] else acc ++ [c]) [])

/-- The columns of a `media_files` row that `track_media_file` reads or
writes. -/
structure MediaRow where
  id : Nat
  file_path : String
  file_name : String
  deriving DecidableEq, Repr

/-- The media repository state: the stored rows and the next ledger id. -/
structure MediaRepoState where
  rows : List MediaRow
  nextId : Nat
  deriving DecidableEq, Repr

/-- `MediaRepository.get_by_file_path`: the first row stored at `p`. -/
def MediaRepoState.get_by_file_path (s : MediaRepoState) (p : String) :
    Option MediaRow :=
  s.rows.find? (fun r => r.file_path == p)

/-- `MediaRepository.update(id, file_path=..., file_name=...)` as used by
`MediaFileTracker.update_media_file_path`
(media_file_tracker.py:121-142). -/
def MediaRepoState.update_path (s : MediaRepoState) (id : Nat)
    (newPath : String) : MediaRepoState :=
  { s with rows := s.rows.map (fun r =>
      if r.id == id then
        { r with file_path := newPath, file_name := pathName newPath }
      else r) }

/-- `MediaRepository.create`: append a fresh row with the next id. -/
def MediaRepoState.create (s : MediaRepoState) (p : String) :
    MediaRow × MediaRepoState :=
  let row : MediaRow := { id := s.nextId, file_path := p, file_name := pathName p }
  (row, { rows := s.rows ++ [row], nextId := s.nextId + 1 })

/-- `MediaFileTracker.track_media_file` (media_file_tracker.py:34-119).
`fileExists` is `file_path.exists()`; `original_path` is
`metadata.get("original_path")` (`none` when the metadata carries no such
key). Returns the media file id (or `none` for a non-existent file) and
the repository state after the call. -/
def MediaFileTracker.track_media_file (s : MediaRepoState)
    (file_path : String) (fileExists : Bool)
    (original_path : Option String) : Option Nat × MediaRepoState :=
  if !fileExists then (none, s)
  else
    match s.get_by_file_path file_path with
    | some existing => (some existing.id, s)
    | none =>
        let migrated : Option Nat :=
          match original_path with
          | some op =>
              match s.get_by_file_path op with
              | some existing => some existing.id
              | none => none
          | none => none
        match migrated with
        | some id => (some id, s.update_path id file_path)
        | none =>
            let (row, s) := s.create file_path
            (some row.id, s)

/-! ## Playlist-video linking
(src/spatelier/domain/use_cases/download_playlist_use_case.py:141-176,
src/domain/services/playlist_tracker.py:103-133) -/

/-- One `playlist_videos` row. -/
structure PlaylistVideoRow where
  playlist_id : Nat
  media_file_id : Nat
  position : Nat
  deriving DecidableEq, Repr

/-- `PlaylistVideoRepository.add_video_to_playlist`: fails with `Conflict`
on a duplicate `(playlist_id, position)` pair, otherwise appends the row
(spec section 4.1). -/
def add_video_to_playlist (rows : List PlaylistVideoRow)
    (playlist_id media_file_id position : Nat) :
    Except Unit (List PlaylistVideoRow) :=
  if rows.any (fun r =>
      r.playlist_id == playlist_id && r.position == position) then
    Except.error ()
  else
    Except.ok (rows ++
      [{ playlist_id := playlist_id, media_file_id := media_file_id,
         position := position }])

/-- `PlaylistTracker.link_video_to_playlist`
(playlist_tracker.py:103-133): the `Conflict` failure is caught and
reported as `False`, leaving the table unchanged. -/
def PlaylistTracker.link_video_to_playlist (rows : List PlaylistVideoRow)
    (playlist_id media_file_id position : Nat) :
    Bool × List PlaylistVideoRow :=
  match add_video_to_playlist rows playlist_id media_file_id position with
  | Except.ok rows => (true, rows)
  | Except.error _ => (false, rows)

/-- One entry of the `downloaded_videos` list consumed by
`_track_playlist_videos`: its path, whether that path exists, and the
metadata's `original_path` (fed to `track_media_file`). -/
structure PlaylistEntry where
  path : String
  pathExists : Bool
  original_path : Option String
  deriving DecidableEq, Repr

/-- `DownloadPlaylistUseCase._track_playlist_videos`
(download_playlist_use_case.py:141-176): iterate with
`enumerate(downloaded_videos, 1)`; entries whose path does not exist are
skipped (`continue`) but still consume their position; each remaining
entry is tracked and, when tracking yields an id, linked at the current
position. -/
def DownloadPlaylistUseCase.trackLoop (playlist_db_id : Nat) :
    List PlaylistEntry → MediaRepoState → List PlaylistVideoRow → Nat →
    MediaRepoState × List PlaylistVideoRow
  | [], ms, rows, _position => (ms, rows)
  | v :: vs, ms, rows, position =>
      if !v.pathExists then
        DownloadPlaylistUseCase.trackLoop playlist_db_id vs ms rows (position + 1)
      else
        let (mid, ms) :=
          MediaFileTracker.track_media_file ms v.path true v.original_path
        match mid with
        | some media_file_id =>
            let (_, rows) := PlaylistTracker.link_video_to_playlist rows
              playlist_db_id media_file_id position
            DownloadPlaylistUseCase.trackLoop playlist_db_id vs ms rows (position + 1)
        | none =>
            DownloadPlaylistUseCase.trackLoop playlist_db_id vs ms rows (position + 1)

/-- `DownloadPlaylistUseCase._track_playlist_videos`: the loop started at
position 1. -/
def DownloadPlaylistUseCase._track_playlist_videos (playlist_db_id : Nat)
    (downloaded_videos : List PlaylistEntry) (ms : MediaRepoState)
    (rows : List PlaylistVideoRow) : MediaRepoState × List PlaylistVideoRow :=
  DownloadPlaylistUseCase.trackLoop playlist_db_id downloaded_videos ms rows 1

/-! ## Job manager (src/domain/services/job_manager.py) and
DownloadVideoUseCase
(src/spatelier/domain/use_cases/download_video_use_case.py) -/

/-- The behaviour of the underlying job repository during one run: each
operation either returns (`ok`) or raises (`error` carries the exception
message). -/
structure JobRepoBehavior where
  createResult : Except String Nat
  updateStatusResult : Except String Unit
  updateResult : Except String Unit
  deriving Repr

/-- `ProcessingStatus(status)` on a string: `none` models the `ValueError`
raised for an unknown status name. -/
def parseProcessingStatus : String → Option ProcessingStatus
  | "pending" => some ProcessingStatus.pending
  | "processing" => some ProcessingStatus.processing
  | "completed" => some ProcessingStatus.completed
  | "failed" => some ProcessingStatus.failed
  | _ => none

/-- `JobManager.create_job` (job_manager.py:30-63): any repository
exception is caught and `None` is returned. -/
def JobManager.create_job (repo : JobRepoBehavior) : Option Nat :=
  match repo.createResult with
  | Except.ok id => some id
  | Except.error _ => none

/-- `JobManager.update_job_status` (job_manager.py:65-91): the status
string is parsed and the repository's `update_status` called; any
exception (including the parse `ValueError`) is caught and `False` is
returned. -/
def JobManager.update_job_status (repo : JobRepoBehavior)
    (status : String) : Bool :=
  match parseProcessingStatus status with
  | none => false
  | some _ =>
      match repo.updateStatusResult with
      | Except.ok _ => true
      | Except.error _ => false

/-- `JobManager.update_job` (job_manager.py:93-122): any repository
exception is caught and `False` is returned. -/
def JobManager.update_job (repo : JobRepoBehavior) : Bool :=
  match repo.updateResult with
  | Except.ok _ => true
  | Except.error _ => false

/-- The download service result consumed by
`DownloadVideoUseCase.execute`: `success` and `output_path` of the
`ProcessingResult`. -/
structure DlResult where
  success : Bool
  output_path : Option String
  deriving DecidableEq, Repr

/-- The observable effect of one `DownloadVideoUseCase.execute` run: the
returned result, the job id obtained from `create_job`, whether the
download service was invoked, and the job-status updates requested via
`JobManager.update_job_status` (in order). -/
structure ExecEffect where
  result : DlResult
  job_id : Option Nat
  downloadInvoked : Bool
  statusUpdates : List (Nat × String)
  deriving DecidableEq, Repr

/-- `DownloadVideoUseCase.execute`
(download_video_use_case.py:54-138), keeping the job-management and
download steps and eliding metadata enrichment and media tracking (which
touch neither the job id nor the status updates). `download` is the
download service call (`download_video`); it is invoked exactly once in
every run. All `update_job_status` calls are guarded by `if job_id`. -/
def DownloadVideoUseCase.execute (repo : JobRepoBehavior)
    (create_job : Bool) (download : Unit → DlResult) : ExecEffect :=
  let job_id := if create_job then JobManager.create_job repo else none
  let startUpdates : List (Nat × String) :=
    match job_id with
    | some j => [(j, "processing")]
    | none => []
  let result := download ()
  let endUpdates : List (Nat × String) :=
    match job_id with
    | some j =>
        if result.success && result.output_path.isSome then
          [(j, "completed")]
        else
          [(j, "failed")]
    | none => []
  { result := result, job_id := job_id, downloadInvoked := true,
    statusUpdates := startUpdates ++ endUpdates }

/-! ## Bridging lemmas for the string model -/

theorem charsStartsWith_iff (p l : List Char) :
    charsStartsWith p l = true ↔ p <+: l := by
  induction p generalizing l with
  | nil => simp [charsStartsWith]
  | cons a as ih =>
    cases l with
    | nil => simp [charsStartsWith]
    | cons b bs => simp [charsStartsWith, List.cons_prefix_cons, ih]

theorem charsContains_iff (l sub : List Char) :
    charsContains l sub = true ↔ sub <:+: l := by
  induction l with
  | nil => simp [charsContains, List.isEmpty_iff]
  | cons a rest ih =>
    simp [charsContains, charsStartsWith_iff, ih, List.infix_cons_iff]

theorem strContains_iff (s sub : String) :
    strContains s sub = true ↔ sub.toList <:+: s.toList := by
  simp [strContains, charsContains_iff]

theorem strContains_of_strContains_whisperai (s : String)
    (h : strContains s "whisperai" = true) :
    strContains s "whisper" = true := by
  rw [strContains_iff] at h ⊢
  exact List.IsInfix.trans (by decide) h

/-- Claim C9: the remote-storage classifier is a pure substring test:
`NASStorageAdapter.is_remote` (and the download service's `_is_nas_path`)
returns true exactly when the lowercased string form of the path contains
one of the six indicators, so any path merely containing `nas` or
`network` is classified remote, while `LocalStorageAdapter.is_remote`
returns false for every path. -/
theorem c9_remote_classifier_substring :
    (∀ p : String, NASStorageAdapter.is_remote p = true ↔
      ∃ ind ∈ nas_indicators, ind.toList <:+: (pyLower p).toList) ∧
    (∀ p : String,
      VideoDownloadService._is_nas_path p = NASStorageAdapter.is_remote p) ∧
    (∀ p : String,
      strContains (pyLower p) "nas" = true ∨
        strContains (pyLower p) "network" = true →
      NASStorageAdapter.is_remote p = true) ∧
    (∀ p : String, LocalStorageAdapter.is_remote p = false) := by
  refine ⟨fun p => ?_, fun p => rfl, fun p h => ?_, fun p => rfl⟩
  · simp [NASStorageAdapter.is_remote, List.any_eq_true, strContains_iff]
  · rw [NASStorageAdapter.is_remote, List.any_eq_true]
    rcases h with h | h
    · exact ⟨"nas", by simp [nas_indicators], h⟩
    · exact ⟨"network", by simp [nas_indicators], h⟩

/-- Witness for C9 at concrete paths: `/home/nasir/videos` contains `nas`
and is classified remote by the NAS adapter, never by the local one. -/
theorem c9_remote_classifier_substring_witness :
    (strContains (pyLower "/home/nasir/videos") "nas" = true ∨
      strContains (pyLower "/home/nasir/videos") "network" = true) ∧
    NASStorageAdapter.is_remote "/home/nasir/videos" = true ∧
    LocalStorageAdapter.is_remote "/home/nasir/videos" = false :=
  ⟨Or.inl (by decide),
    c9_remote_classifier_substring.2.2.1 "/home/nasir/videos"
      (Or.inl (by decide)),
    c9_remote_classifier_substring.2.2.2 "/home/nasir/videos"⟩

/-- `_has_whisper_subtitles` holds exactly when the probe succeeded and
some subtitle stream's title contains `whisper` case-insensitively (the
`whisperai` disjunct of the source is absorbed, since `whisperai`
contains `whisper`). -/
theorem has_whisper_subtitles_iff (probe : Option (List FfprobeStream)) :
    VideoDownloadService._has_whisper_subtitles probe = true ↔
      ∃ streams, probe = some streams ∧ ∃ st ∈ streams,
        st.codec_type = "subtitle" ∧
        strContains (pyLower (st.title.getD "")) "whisper" = true := by
  cases probe with
  | none => simp [VideoDownloadService._has_whisper_subtitles]
  | some streams =>
    simp only [VideoDownloadService._has_whisper_subtitles,
      List.any_eq_true, Bool.and_eq_true, Bool.or_eq_true, beq_iff_eq,
      Option.some.injEq]
    constructor
    · rintro ⟨st, hmem, hcodec, hw⟩
      refine ⟨streams, rfl, st, hmem, hcodec, ?_⟩
      rcases hw with hw | hw
      · exact hw
      · exact strContains_of_strContains_whisperai _ hw
    · rintro ⟨streams2, hstreams, st, hmem, hcodec, hw⟩
      cases hstreams
      exact ⟨st, hmem, hcodec, Or.inl hw⟩

/-- Claim C4, counterexample: a file whose only subtitle stream is titled
`Whisper` does not carry the literal `WhisperAI` (case-insensitively),
yet the smart-overwrite check refuses to overwrite it — the source tests
`"whisper" in title.lower()`, not the `WhisperAI` marker. -/
theorem c4_smart_overwrite_counterexample :
    (VideoDownloadService._check_existing_video "/videos/v.mp4" true
        (some [{ codec_type := "subtitle", title := some "Whisper" }])).should_overwrite
      = false ∧
    strContains (pyLower "Whisper") "whisperai" = false := by
  decide

/-- Claim C4 as amended: for an existing file, `should_overwrite` is false
exactly when the probe reports a subtitle stream whose title tag contains
`whisper` case-insensitively (a superset of the `WhisperAI` marker); for
a missing file, or one without such a stream (other titles, no title tag,
or probe failure), `should_overwrite` is true. -/
theorem c4_smart_overwrite_amended (path : String) (fileExists : Bool)
    (probe : Option (List FfprobeStream)) :
    (VideoDownloadService._check_existing_video path fileExists
        probe).should_overwrite = false ↔
      fileExists = true ∧ ∃ streams, probe = some streams ∧
        ∃ st ∈ streams, st.codec_type = "subtitle" ∧
          strContains (pyLower (st.title.getD "")) "whisper" = true := by
  rw [← has_whisper_subtitles_iff]
  cases fileExists with
  | false => simp [VideoDownloadService._check_existing_video]
  | true =>
    simp only [VideoDownloadService._check_existing_video, Bool.not_true,
      Bool.false_eq_true, if_false, true_and]
    cases h : VideoDownloadService._has_whisper_subtitles probe <;> simp [h]

/-! ## Lemmas on `_find_latest_download` -/

theorem foldlMax_mem (fs : List DirFile) (cur : DirFile) :
    fs.foldl (fun cur g => if g.mtime > cur.mtime then g else cur) cur
      ∈ cur :: fs := by
  induction fs generalizing cur with
  | nil => simp
  | cons g gs ih =>
    simp only [List.foldl_cons]
    by_cases h : g.mtime > cur.mtime
    · simp only [if_pos h]
      rcases List.mem_cons.mp (ih g) with h2 | h2
      · simp [h2]
      · simp [List.mem_cons, h2]
    · simp only [if_neg h]
      rcases List.mem_cons.mp (ih cur) with h2 | h2
      · simp [h2]
      · simp [List.mem_cons, h2]

theorem foldlMax_ge (fs : List DirFile) (cur : DirFile) :
    cur.mtime ≤
      (fs.foldl (fun cur g => if g.mtime > cur.mtime then g else cur)
        cur).mtime ∧
    ∀ g ∈ fs, g.mtime ≤
      (fs.foldl (fun cur g => if g.mtime > cur.mtime then g else cur)
        cur).mtime := by
  induction fs generalizing cur with
  | nil => simp
  | cons g gs ih =>
    simp only [List.foldl_cons, List.mem_cons]
    by_cases h : g.mtime > cur.mtime
    · simp only [if_pos h]
      refine ⟨le_trans (le_of_lt h) (ih g).1, ?_⟩
      intro x hx
      rcases hx with hx | hx
      · subst hx
        exact (ih _).1
      · exact (ih _).2 x hx
    · simp only [if_neg h]
      refine ⟨(ih cur).1, ?_⟩
      intro x hx
      rcases hx with hx | hx
      · subst hx
        exact le_trans (le_of_not_lt h) (ih cur).1
      · exact (ih cur).2 x hx

theorem maxByMtime_spec (l : List DirFile) (f : DirFile)
    (h : maxByMtime l = some f) :
    f ∈ l ∧ ∀ g ∈ l, g.mtime ≤ f.mtime := by
  cases l with
  | nil => simp [maxByMtime] at h
  | cons a fs =>
    simp only [maxByMtime, Option.some.injEq] at h
    subst h
    refine ⟨foldlMax_mem fs a, ?_⟩
    rintro g hg
    rcases List.mem_cons.mp hg with rfl | hg
    · exact (foldlMax_ge fs g).1
    · exact (foldlMax_ge fs a).2 g hg

theorem maxByMtime_eq_none_iff (l : List DirFile) :
    maxByMtime l = none ↔ l = [] := by
  cases l <;> simp [maxByMtime]

/-- Membership in the glob-candidate accumulation of
`_find_latest_download`. -/
theorem mem_candidates_iff (files : List DirFile) (exts : List String)
    (acc : List DirFile) (f : DirFile) :
    f ∈ exts.foldl
        (fun acc ext => acc ++ files.filter
          (fun g => strEndsWith g.name ext)) acc ↔
      f ∈ acc ∨ (f ∈ files ∧ ∃ ext ∈ exts, strEndsWith f.name ext = true) := by
  induction exts generalizing acc with
  | nil => simp
  | cons e es ih =>
    simp only [List.foldl_cons, ih, List.mem_append, List.mem_filter,
      List.mem_cons]
    constructor
    · rintro ((h | ⟨hf, he⟩) | ⟨hf, ext, hext, hend⟩)
      · exact Or.inl h
      · exact Or.inr ⟨hf, e, Or.inl rfl, he⟩
      · exact Or.inr ⟨hf, ext, Or.inr hext, hend⟩
    · rintro (h | ⟨hf, ext, (rfl | hext), hend⟩)
      · exact Or.inl (Or.inl h)
      · exact Or.inl (Or.inr ⟨hf, hend⟩)
      · exact Or.inr ⟨hf, ext, hext, hend⟩

theorem find_latest_download_spec (files : List DirFile)
    (exts : List String) :
    (∀ f, VideoDownloadService._find_latest_download files exts = some f →
      f ∈ files ∧ f.isFile = true ∧
        (∃ ext ∈ exts, strEndsWith f.name ext = true) ∧
        ∀ g ∈ files, g.isFile = true →
          (∃ ext ∈ exts, strEndsWith g.name ext = true) →
          g.mtime ≤ f.mtime) ∧
    (VideoDownloadService._find_latest_download files exts = none ↔
      ∀ f ∈ files, f.isFile = true →
        ∀ ext ∈ exts, strEndsWith f.name ext = false) := by
  constructor
  · intro f h
    rw [VideoDownloadService._find_latest_download] at h
    obtain ⟨hmem, hmax⟩ := maxByMtime_spec _ _ h
    rw [List.mem_filter] at hmem
    obtain ⟨hcand, hfile⟩ := hmem
    rw [mem_candidates_iff] at hcand
    rcases hcand with h0 | ⟨hf, hext⟩
    · simp at h0
    · refine ⟨hf, hfile, hext, ?_⟩
      intro g hg hgfile hgext
      exact hmax g (List.mem_filter.mpr
        ⟨(mem_candidates_iff files exts [] g).mpr (Or.inr ⟨hg, hgext⟩),
          hgfile⟩)
  · rw [VideoDownloadService._find_latest_download, maxByMtime_eq_none_iff,
      List.filter_eq_nil_iff]
    constructor
    · intro h f hf hfile ext hext
      by_contra hend
      exact absurd hfile (by
        simpa using h f ((mem_candidates_iff files exts [] f).mpr
          (Or.inr ⟨hf, ext, hext, by simpa using hend⟩)))
    · intro h f hcand
      rw [mem_candidates_iff] at hcand
      rcases hcand with h0 | ⟨hf, ext, hext, hend⟩
      · simp at h0
      · by_contra hfile
        have := h f hf (by simpa using hfile) ext hext
        rw [this] at hend
        cases hend

/-- Claim C3, counterexample: the source resolution neither checks the
announced file's size (a zero-byte announced file is used as-is) nor
restricts the fallback to the video id or to non-identifiable URLs (a
file without the id `abc123` in its name is chosen by latest mtime). -/
theorem c3_resolution_counterexample :
    (VideoDownloadService.resolveAfterDownload (some "Video [abc123].mp4")
        [⟨"Video [abc123].mp4", 0, 5, true⟩] [".mp4"]
      = some "Video [abc123].mp4") ∧
    (⟨"Video [abc123].mp4", 0, 5, true⟩ : DirFile).size = 0 ∧
    (VideoDownloadService.resolveAfterDownload (some "Missing [abc123].mp4")
        [⟨"Other [zzz999].mp4", 7, 3, true⟩] [".mp4"]
      = some "Other [zzz999].mp4") ∧
    strContains "Other [zzz999].mp4" "abc123" = false := by
  decide

/-- Claim C3 as amended: after the engine returns, the announced path is
used whenever it exists (no size check); otherwise the most recently
modified regular file in the working directory whose name ends in a
configured video extension is chosen, for identifiable and
non-identifiable URLs alike and regardless of the video id or size; if no
such file exists, no file is resolved and the job fails with error
message `Download failed`. -/
theorem c3_resolution_amended (announced : Option String)
    (files : List DirFile) (exts : List String) :
    (∀ a, announced = some a → fileExistsIn files a = true →
      VideoDownloadService.resolveAfterDownload announced files exts = some a) ∧
    ((∀ a, announced = some a → fileExistsIn files a = false) →
      ∀ n, VideoDownloadService.resolveAfterDownload announced files exts
          = some n →
        ∃ f ∈ files, f.name = n ∧ f.isFile = true ∧
          (∃ ext ∈ exts, strEndsWith f.name ext = true) ∧
          ∀ g ∈ files, g.isFile = true →
            (∃ ext ∈ exts, strEndsWith g.name ext = true) →
            g.mtime ≤ f.mtime) ∧
    ((∀ a, announced = some a → fileExistsIn files a = false) →
      (VideoDownloadService.resolveAfterDownload announced files exts = none ↔
        ∀ f ∈ files, f.isFile = true →
          ∀ ext ∈ exts, strEndsWith f.name ext = false)) ∧
    (VideoDownloadService.resolveAfterDownload announced files exts = none →
      VideoDownloadService.downloadVideoLocalOutcome announced files exts
        = JobOutcome.failedMsg "Download failed") := by
  have hfallback :
      ∀ n, (VideoDownloadService._find_latest_download files exts).map
          (fun f => f.name) = some n →
        ∃ f ∈ files, f.name = n ∧ f.isFile = true ∧
          (∃ ext ∈ exts, strEndsWith f.name ext = true) ∧
          ∀ g ∈ files, g.isFile = true →
            (∃ ext ∈ exts, strEndsWith g.name ext = true) →
            g.mtime ≤ f.mtime := by
    intro n hsome
    rw [Option.map_eq_some'] at hsome
    obtain ⟨f, hf, rfl⟩ := hsome
    obtain ⟨h1, h2, h3, h4⟩ := (find_latest_download_spec files exts).1 f hf
    exact ⟨f, h1, rfl, h2, h3, h4⟩
  refine ⟨?_, ?_, ?_, ?_⟩
  · rintro a rfl hex
    simp [VideoDownloadService.resolveAfterDownload, hex]
  · intro hnone n hsome
    cases announced with
    | none =>
        rw [VideoDownloadService.resolveAfterDownload] at hsome
        exact hfallback n hsome
    | some a =>
        rw [VideoDownloadService.resolveAfterDownload, hnone a rfl] at hsome
        simp only [Bool.false_eq_true, if_false] at hsome
        exact hfallback n hsome
  · intro hnone
    have hmap :
        (VideoDownloadService._find_latest_download files exts).map
            (fun f => f.name) = none ↔
          VideoDownloadService._find_latest_download files exts = none := by
      cases VideoDownloadService._find_latest_download files exts <;> simp
    cases announced with
    | none =>
        rw [VideoDownloadService.resolveAfterDownload, hmap]
        exact (find_latest_download_spec files exts).2
    | some a =>
        rw [VideoDownloadService.resolveAfterDownload, hnone a rfl]
        simp only [Bool.false_eq_true, if_false]
        rw [hmap]
        exact (find_latest_download_spec files exts).2
  · intro h
    rw [VideoDownloadService.downloadVideoLocalOutcome, h]

/-- Witness for the amended C3 at concrete inputs: an existing announced
file is used, and with no announced file the latest matching video file
is chosen. -/
theorem c3_resolution_amended_witness :
    VideoDownloadService.resolveAfterDownload (some "a.mp4")
        [⟨"a.mp4", 9, 1, true⟩] [".mp4"] = some "a.mp4" ∧
    VideoDownloadService.downloadVideoLocalOutcome none [] [".mp4"]
      = JobOutcome.failedMsg "Download failed" :=
  ⟨(c3_resolution_amended (some "a.mp4") [⟨"a.mp4", 9, 1, true⟩]
      [".mp4"]).1 "a.mp4" rfl (by decide),
    (c3_resolution_amended none [] [".mp4"]).2.2.2 (by decide)⟩

/-- Claim C6, counterexample: a fault-free cross-device publish succeeds
through the copy-then-unlink fallback of `shutil.move` and its trace
contains no fsync call, contrary to the claimed copy+fsync+unlink
fallback. -/
theorem c6_publish_counterexample :
    (move_file (some "data") none false MoveFault.noFault).success = true ∧
    (move_file (some "data") none false MoveFault.noFault).trace
      = [FsOp.mkdirParents, FsOp.copyData, FsOp.unlinkSrc] ∧
    FsOp.fsyncCall ∉ (move_file (some "data") none false MoveFault.noFault).trace := by
  refine ⟨by decide, by decide, ?_⟩
  decide

/-- Claim C6 as amended: publishing renames on the same device and falls
back to copy-then-unlink (no fsync is ever issued) across devices; a
successful move leaves the source's content at the destination and
removes the source; every failure is reported as a `false` return (never
an exception) with the source file intact at its original path. -/
theorem c6_publish_amended (src dst : Option String) (sameDevice : Bool)
    (fault : MoveFault) :
    FsOp.fsyncCall ∉ (move_file src dst sameDevice fault).trace ∧
    ((move_file src dst sameDevice fault).success = false →
      (move_file src dst sameDevice fault).srcAfter = src) ∧
    ((move_file src dst sameDevice fault).success = true →
      (move_file src dst sameDevice fault).dstAfter = src ∧
      (move_file src dst sameDevice fault).srcAfter = none) ∧
    (sameDevice = true →
      FsOp.copyData ∉ (move_file src dst sameDevice fault).trace) ∧
    (sameDevice = false →
      FsOp.rename ∉ (move_file src dst sameDevice fault).trace) := by
  cases fault <;> cases src <;> cases sameDevice <;>
    simp [move_file]

/-- Witness for the amended C6: a failing copy (cross-device) reports
`false` and leaves the source intact; a fault-free same-device move
renames without copying. -/
theorem c6_publish_amended_witness :
    (move_file (some "x") none false (MoveFault.copyFail none)).success
        = false ∧
    (move_file (some "x") none false (MoveFault.copyFail none)).srcAfter
        = some "x" ∧
    FsOp.copyData ∉ (move_file (some "x") (some "old") true
        MoveFault.noFault).trace :=
  ⟨by decide,
    (c6_publish_amended (some "x") none false (MoveFault.copyFail none)).2.1
      (by decide),
    (c6_publish_amended (some "x") (some "old") true
      MoveFault.noFault).2.2.2.1 rfl⟩

/-- Claim C1, counterexample: a direct `pending → completed` call to
`update_status` does not fail with `InvalidTransition`: it changes the
row, setting the status to `completed` and stamping `completed_at`
(src/tests/integration/test_job_timing.py:164-178 asserts exactly this
behaviour of the repository). -/
theorem c1_transition_guard_counterexample :
    (ProcessingJobRepository.update_status ProcessingJobRepository.create_row
        ProcessingStatus.completed none 100).status
      = ProcessingStatus.completed ∧
    (ProcessingJobRepository.update_status ProcessingJobRepository.create_row
        ProcessingStatus.completed none 100).completed_at = some 100 ∧
    ProcessingJobRepository.update_status ProcessingJobRepository.create_row
        ProcessingStatus.completed none 100
      ≠ ProcessingJobRepository.create_row := by
  decide

/-- Claim C1 as amended: `update_status` applies any requested status
without a transition-validity check; in particular a direct
`pending → (completed|failed)` call on a freshly created job succeeds,
setting `completed_at` while leaving `started_at` and `duration_seconds`
null, so status histories need not pass through `processing`. -/
theorem c1_transition_guard_amended (new : ProcessingStatus)
    (err : Option String) (now : Nat) :
    (ProcessingJobRepository.update_status ProcessingJobRepository.create_row
        new err now).status = new ∧
    (new = ProcessingStatus.completed ∨ new = ProcessingStatus.failed →
      (ProcessingJobRepository.update_status ProcessingJobRepository.create_row
          new err now).completed_at = some now ∧
      (ProcessingJobRepository.update_status ProcessingJobRepository.create_row
          new err now).started_at = none ∧
      (ProcessingJobRepository.update_status ProcessingJobRepository.create_row
          new err now).duration_seconds = none) := by
  cases new <;>
    simp [ProcessingJobRepository.update_status,
      ProcessingJobRepository.create_row]

/-- Witness for the amended C1: the direct `pending → completed` call at
time 100 sets `completed_at` and leaves `started_at` and duration null. -/
theorem c1_transition_guard_amended_witness :
    (ProcessingJobRepository.update_status ProcessingJobRepository.create_row
        ProcessingStatus.completed none 100).completed_at = some 100 ∧
    (ProcessingJobRepository.update_status ProcessingJobRepository.create_row
        ProcessingStatus.completed none 100).started_at = none ∧
    (ProcessingJobRepository.update_status ProcessingJobRepository.create_row
        ProcessingStatus.completed none 100).duration_seconds = none :=
  (c1_transition_guard_amended ProcessingStatus.completed none 100).2
    (Or.inl rfl)

/-- The `started_at` column is set by an `update_status` call iff the
requested status is `processing`. -/
theorem update_status_started_at (j : JobRow) (new : ProcessingStatus)
    (err : Option String) (now : Nat) :
    (ProcessingJobRepository.update_status j new err now).started_at
      = if new = ProcessingStatus.processing then some now
        else j.started_at := by
  cases new <;> simp [ProcessingJobRepository.update_status]

/-- Over any call history from a freshly created row, `started_at` is
non-null iff some call requested `processing`. -/
theorem runUpdates_started_at (calls : List (ProcessingStatus × Option String × Nat))
    (j : JobRow) :
    (ProcessingJobRepository.runUpdates j calls).started_at ≠ none ↔
      j.started_at ≠ none ∨
        ∃ c ∈ calls, c.1 = ProcessingStatus.processing := by
  induction calls generalizing j with
  | nil => simp [ProcessingJobRepository.runUpdates]
  | cons c cs ih =>
    simp only [ProcessingJobRepository.runUpdates] at ih ⊢
    rw [List.foldl_cons, ih]
    rw [update_status_started_at]
    by_cases h : c.1 = ProcessingStatus.processing
    · simp [h]
    · simp only [if_neg h, List.mem_cons]
      constructor
      · rintro (hs | ⟨d, hd, hdp⟩)
        · exact Or.inl hs
        · exact Or.inr ⟨d, Or.inr hd, hdp⟩
      · rintro (hs | ⟨d, (rfl | hd), hdp⟩)
        · exact Or.inl hs
        · exact absurd hdp h
        · exact Or.inr ⟨d, hd, hdp⟩

/-- Claim C2: `update_status` sets `started_at` exactly on calls entering
`processing` (so over any history from a fresh row, `started_at` is
non-null iff the job ever entered `processing`); every transition to
`completed` or `failed` stamps `completed_at := now` and sets
`duration_seconds = completed_at − started_at` when `started_at` exists,
leaving it null when `started_at` does not exist. -/
theorem c2_timing_fields (j : JobRow) (new : ProcessingStatus)
    (err : Option String) (now : Nat)
    (calls : List (ProcessingStatus × Option String × Nat)) :
    ((ProcessingJobRepository.update_status j new err now).started_at
      = if new = ProcessingStatus.processing then some now
        else j.started_at) ∧
    (new = ProcessingStatus.completed ∨ new = ProcessingStatus.failed →
      (ProcessingJobRepository.update_status j new err now).completed_at
          = some now ∧
      (ProcessingJobRepository.update_status j new err now).duration_seconds
          = j.started_at.map (fun s => now - s)) ∧
    ((ProcessingJobRepository.runUpdates
        ProcessingJobRepository.create_row calls).started_at ≠ none ↔
      ∃ c ∈ calls, c.1 = ProcessingStatus.processing) := by
  refine ⟨update_status_started_at j new err now, ?_, ?_⟩
  · rintro (rfl | rfl) <;>
      simp [ProcessingJobRepository.update_status]
  · rw [runUpdates_started_at]
    simp [ProcessingJobRepository.create_row]

/-- Witness for C2: completing at time 10 a job that entered `processing`
at time 3 stamps `completed_at = 10` and `duration_seconds = 7`; a
history consisting of one `processing` call yields a non-null
`started_at`. -/
theorem c2_timing_fields_witness :
    (ProcessingJobRepository.update_status
        { status := ProcessingStatus.processing, started_at := some 3,
          completed_at := none, duration_seconds := none,
          error_message := none }
        ProcessingStatus.completed none 10).completed_at = some 10 ∧
    (ProcessingJobRepository.update_status
        { status := ProcessingStatus.processing, started_at := some 3,
          completed_at := none, duration_seconds := none,
          error_message := none }
        ProcessingStatus.completed none 10).duration_seconds = some 7 ∧
    ((ProcessingJobRepository.runUpdates ProcessingJobRepository.create_row
        [(ProcessingStatus.processing, none, 3)]).started_at ≠ none) := by
  have h := c2_timing_fields
    { status := ProcessingStatus.processing, started_at := some 3,
      completed_at := none, duration_seconds := none, error_message := none }
    ProcessingStatus.completed none 10
    [(ProcessingStatus.processing, none, 3)]
  refine ⟨(h.2.1 (Or.inl rfl)).1, ?_, ?_⟩
  · rw [(h.2.1 (Or.inl rfl)).2]
    decide
  · rw [h.2.2]
    exact ⟨(ProcessingStatus.processing, none, 3), by decide⟩

/-- Claim C5: for a job the sweep deems stuck, the worker first checks the
job's `job_path` for a completed output with a configured video
extension: if one is present the job transitions to `completed`,
otherwise it transitions to `failed` with an error reason containing
`stuck`. -/
theorem c5_stuck_job_resolution (jobFiles : List DirFile)
    (video_extensions : List String) :
    (Worker._check_job_output_success jobFiles video_extensions = true →
      Worker.handle_stuck_job jobFiles video_extensions
        = (ProcessingStatus.completed, none)) ∧
    (Worker._check_job_output_success jobFiles video_extensions = false →
      (Worker.handle_stuck_job jobFiles video_extensions).1
          = ProcessingStatus.failed ∧
      ∃ msg, (Worker.handle_stuck_job jobFiles video_extensions).2 = some msg ∧
        strContains msg "stuck" = true) ∧
    (Worker._check_job_output_success jobFiles video_extensions = true ↔
      ∃ f ∈ jobFiles, f.isFile = true ∧
        ∃ ext ∈ video_extensions, strEndsWith f.name ext = true) := by
  refine ⟨fun h => ?_, fun h => ?_, ?_⟩
  · simp [Worker.handle_stuck_job, h]
  · refine ⟨by simp [Worker.handle_stuck_job, h], ?_⟩
    exact ⟨"Job stuck - worker process died or timed out",
      by simp [Worker.handle_stuck_job, h], by decide⟩
  · simp [Worker._check_job_output_success, List.any_eq_true,
      Bool.and_eq_true]

/-- Witness for C5: a job directory holding `out.mp4` resolves to
`completed`; an empty directory resolves to `failed` with a `stuck`
reason. -/
theorem c5_stuck_job_resolution_witness :
    Worker.handle_stuck_job [⟨"out.mp4", 9, 1, true⟩] [".mp4"]
        = (ProcessingStatus.completed, none) ∧
    (Worker.handle_stuck_job ([] : List DirFile) [".mp4"]).1
        = ProcessingStatus.failed :=
  ⟨(c5_stuck_job_resolution [⟨"out.mp4", 9, 1, true⟩] [".mp4"]).1
      (by decide),
    ((c5_stuck_job_resolution ([] : List DirFile) [".mp4"]).2.1
      (by decide)).1⟩

/-- Claim C10: `JobManager` never propagates repository errors:
`create_job` returns `none` and `update_job_status` / `update_job` return
`false` when the repository raises; consequently
`DownloadVideoUseCase.execute` still invokes the download service and
returns its result when job creation failed, with `job_id = none` and no
job-status updates recorded for the run. -/
theorem c10_job_manager_error_swallowing (repo : JobRepoBehavior)
    (download : Unit → DlResult) (e : String) :
    (repo.createResult = Except.error e →
      JobManager.create_job repo = none) ∧
    (∀ s, repo.updateStatusResult = Except.error e →
      JobManager.update_job_status repo s = false) ∧
    (repo.updateResult = Except.error e →
      JobManager.update_job repo = false) ∧
    (repo.createResult = Except.error e →
      DownloadVideoUseCase.execute repo true download
        = { result := download (), job_id := none, downloadInvoked := true,
            statusUpdates := [] }) := by
  refine ⟨fun h => ?_, fun s h => ?_, fun h => ?_, fun h => ?_⟩
  · simp [JobManager.create_job, h]
  · cases hp : parseProcessingStatus s <;>
      simp [JobManager.update_job_status, hp, h]
  · simp [JobManager.update_job, h]
  · simp [DownloadVideoUseCase.execute, JobManager.create_job, h]

/-- Witness for C10: with a repository whose every operation raises, the
use case still invokes the download and returns its result with no job id
and no status updates. -/
theorem c10_job_manager_error_swallowing_witness :
    DownloadVideoUseCase.execute
        { createResult := Except.error "db down",
          updateStatusResult := Except.error "db down",
          updateResult := Except.error "db down" }
        true (fun _ => { success := true, output_path := some "/out/v.mp4" })
      = { result := { success := true, output_path := some "/out/v.mp4" },
          job_id := none, downloadInvoked := true, statusUpdates := [] } :=
  (c10_job_manager_error_swallowing
      { createResult := Except.error "db down",
        updateStatusResult := Except.error "db down",
        updateResult := Except.error "db down" }
      (fun _ => { success := true, output_path := some "/out/v.mp4" })
      "db down").2.2.2 rfl

/-! ## Lemmas on the media repository -/

theorem find?_append_of_none {α : Type} (p : α → Bool) (l₁ l₂ : List α)
    (h : l₁.find? p = none) : (l₁ ++ l₂).find? p = l₂.find? p := by
  induction l₁ with
  | nil => simp
  | cons a as ih =>
    rw [List.find?_cons] at h
    cases hp : p a with
    | true => rw [hp] at h; cases h
    | false =>
      rw [hp] at h
      rw [List.cons_append, List.find?_cons, hp]
      exact ih h

/-- After `update_path id p` on a state where no row is stored at `p`,
provided some row carries `id`, the lookup at `p` finds a row with that
id. -/
theorem find?_update_path (rows : List MediaRow) (id : Nat) (p : String)
    (hex : ∃ x ∈ rows, x.id = id)
    (hnone : ∀ x ∈ rows, (x.file_path == p) = false) :
    ∃ r, (rows.map (fun r =>
        if r.id == id then
          { r with file_path := p, file_name := pathName p }
        else r)).find? (fun r => r.file_path == p) = some r ∧ r.id = id := by
  induction rows with
  | nil => simp at hex
  | cons y ys ih =>
    by_cases hy : y.id = id
    · refine ⟨{ y with file_path := p, file_name := pathName p }, ?_, hy⟩
      simp [List.find?_cons, hy]
    · have hyne : (y.id == id) = false := by simp [hy]
      obtain ⟨x, hx, hxid⟩ := hex
      rcases List.mem_cons.mp hx with rfl | hx
      · exact absurd hxid hy
      · obtain ⟨r, hr1, hr2⟩ := ih ⟨x, hx, hxid⟩
          (fun x hx => hnone x (List.mem_cons_of_mem y hx))
        refine ⟨r, ?_, hr2⟩
        rw [List.map_cons]
        have hy2 : (y.file_path == p) = false :=
          hnone y (List.mem_cons_self y ys)
        rw [List.find?_cons_of_neg _ (by simp [hyne, hy2])]
        exact hr1

/-- After a `track_media_file` call on an existing file, the id returned
is the id of a row now stored at the tracked path. -/
theorem track_media_file_post (s : MediaRepoState) (p : String)
    (op : Option String) :
    ∃ r : MediaRow,
      (MediaFileTracker.track_media_file s p true op).1 = some r.id ∧
      (MediaFileTracker.track_media_file s p true op).2.get_by_file_path p
        = some r := by
  cases hfind : s.get_by_file_path p with
  | some existing =>
    exact ⟨existing, by simp [MediaFileTracker.track_media_file, hfind],
      by simp [MediaFileTracker.track_media_file, hfind, hfind]⟩
  | none =>
    have hnone : ∀ x ∈ s.rows, (x.file_path == p) = false := by
      intro x hx
      have := List.find?_eq_none.mp hfind x hx
      simpa using this
    have hcreate : ∀ s2 : MediaRepoState, s2 = s →
        ∃ r : MediaRow,
          (some (s.create p).1.id, (s.create p).2).1 = some r.id ∧
          ((s.create p).2).get_by_file_path p = some r := by
      intro s2 _
      refine ⟨(s.create p).1, rfl, ?_⟩
      simp only [MediaRepoState.create, MediaRepoState.get_by_file_path]
      rw [find?_append_of_none _ _ _ hfind]
      simp [List.find?_cons]
    cases hop : op with
    | none =>
      obtain ⟨r, h1, h2⟩ := hcreate s rfl
      exact ⟨r, by simpa [MediaFileTracker.track_media_file, hfind] using h1,
        by simpa [MediaFileTracker.track_media_file, hfind] using h2⟩
    | some q =>
      cases hq : s.get_by_file_path q with
      | none =>
        obtain ⟨r, h1, h2⟩ := hcreate s rfl
        exact ⟨r,
          by simpa [MediaFileTracker.track_media_file, hfind, hq] using h1,
          by simpa [MediaFileTracker.track_media_file, hfind, hq] using h2⟩
      | some existing =>
        have hex : ∃ x ∈ s.rows, x.id = existing.id :=
          ⟨existing, List.mem_of_find?_eq_some hq, rfl⟩
        obtain ⟨r, hr1, hr2⟩ := find?_update_path s.rows existing.id p hex hnone
        refine ⟨r, ?_, ?_⟩
        · simp [MediaFileTracker.track_media_file, hfind, hq, hr2]
        · simp only [MediaFileTracker.track_media_file, hfind, hq,
            Bool.not_true, if_false]
          simpa [MediaRepoState.update_path, MediaRepoState.get_by_file_path]
            using hr1

/-- Claim C7: tracking a media file is idempotent on path: for an
existing file, a second `track_media_file` call with the same path
returns the same `media_file_id` without creating or modifying any row;
a first call on an untracked path (and no row at the metadata's
`original_path`) creates exactly one row; and when a row exists at the
metadata's recorded `original_path`, that row is migrated to the new
path and its id returned, with no row created. -/
theorem c7_track_media_file_idempotent (s : MediaRepoState) (p : String)
    (op : Option String) :
    ((MediaFileTracker.track_media_file
        (MediaFileTracker.track_media_file s p true op).2 p true op).1
      = (MediaFileTracker.track_media_file s p true op).1 ∧
     (MediaFileTracker.track_media_file
        (MediaFileTracker.track_media_file s p true op).2 p true op).2
      = (MediaFileTracker.track_media_file s p true op).2) ∧
    (s.get_by_file_path p = none →
      (∀ q, op = some q → s.get_by_file_path q = none) →
      (MediaFileTracker.track_media_file s p true op).2.rows.length
        = s.rows.length + 1) ∧
    (∀ q row, s.get_by_file_path p = none → op = some q →
      s.get_by_file_path q = some row →
      (MediaFileTracker.track_media_file s p true op).1 = some row.id ∧
      (MediaFileTracker.track_media_file s p true op).2
          = s.update_path row.id p ∧
      (MediaFileTracker.track_media_file s p true op).2.rows.length
          = s.rows.length) := by
  refine ⟨?_, ?_, ?_⟩
  · obtain ⟨r, h1, h2⟩ := track_media_file_post s p op
    have hfound : ∀ t : MediaRepoState, t.get_by_file_path p = some r →
        MediaFileTracker.track_media_file t p true op = (some r.id, t) := by
      intro t ht
      simp [MediaFileTracker.track_media_file, ht]
    rw [hfound (MediaFileTracker.track_media_file s p true op).2 h2, h1]
    exact ⟨rfl, rfl⟩
  · intro hfind hq
    cases hop : op with
    | none =>
      simp [MediaFileTracker.track_media_file, hfind,
        MediaRepoState.create]
    | some q =>
      have := hq q hop
      simp [MediaFileTracker.track_media_file, hfind, this,
        MediaRepoState.create]
  · intro q row hfind hop hrow
    subst hop
    refine ⟨?_, ?_, ?_⟩
    · simp [MediaFileTracker.track_media_file, hfind, hrow]
    · simp [MediaFileTracker.track_media_file, hfind, hrow]
    · simp [MediaFileTracker.track_media_file, hfind, hrow,
        MediaRepoState.update_path]

/-- Witness for C7 at a concrete state: tracking `/x/v.mp4` in an empty
ledger creates one row, and tracking it again returns the same id with
the state unchanged; migrating a row recorded at `/old/v.mp4` returns
its id. -/
theorem c7_track_media_file_idempotent_witness :
    ((MediaFileTracker.track_media_file
        (MediaFileTracker.track_media_file ⟨[], 0⟩ "/x/v.mp4" true none).2
        "/x/v.mp4" true none).1
      = (MediaFileTracker.track_media_file ⟨[], 0⟩ "/x/v.mp4" true none).1) ∧
    (MediaFileTracker.track_media_file ⟨[], 0⟩ "/x/v.mp4" true
        none).2.rows.length = 1 ∧
    (MediaFileTracker.track_media_file
        ⟨[⟨7, "/old/v.mp4", "v.mp4"⟩], 8⟩ "/x/v.mp4" true
        (some "/old/v.mp4")).1 = some 7 :=
  ⟨(c7_track_media_file_idempotent ⟨[], 0⟩ "/x/v.mp4" none).1.1,
    (c7_track_media_file_idempotent ⟨[], 0⟩ "/x/v.mp4" none).2.1
      (by decide) (by intro q h; cases h),
    ((c7_track_media_file_idempotent ⟨[⟨7, "/old/v.mp4", "v.mp4"⟩], 8⟩
        "/x/v.mp4" (some "/old/v.mp4")).2.2 "/old/v.mp4"
      ⟨7, "/old/v.mp4", "v.mp4"⟩ (by decide) rfl (by decide)).1⟩

/-! ## Lemmas on playlist-video linking -/

/-- `trackLoop` only appends rows; each appended row belongs to the
playlist, carries a position in `[pos, pos + number of entries)`, and the
appended positions are strictly increasing. -/
theorem trackLoop_appends (vs : List PlaylistEntry) (pid : Nat) :
    ∀ (ms : MediaRepoState) (rows : List PlaylistVideoRow) (pos : Nat),
    ∃ newRows,
      (DownloadPlaylistUseCase.trackLoop pid vs ms rows pos).2
        = rows ++ newRows ∧
      (newRows.map (fun r => r.position)).Pairwise (· < ·) ∧
      ∀ r ∈ newRows, r.playlist_id = pid ∧ pos ≤ r.position ∧
        r.position < pos + vs.length := by
  induction vs with
  | nil =>
    intro ms rows pos
    exact ⟨[], by simp [DownloadPlaylistUseCase.trackLoop], by simp, by simp⟩
  | cons v vs ih =>
    intro ms rows pos
    cases hpe : v.pathExists with
    | false =>
      obtain ⟨newRows, h1, h2, h3⟩ := ih ms rows (pos + 1)
      refine ⟨newRows, ?_, h2, ?_⟩
      · simpa [DownloadPlaylistUseCase.trackLoop, hpe] using h1
      · intro r hr
        obtain ⟨ha, hb, hc⟩ := h3 r hr
        refine ⟨ha, by omega, ?_⟩
        simp only [List.length_cons]
        omega
    | true =>
      rcases htrack : MediaFileTracker.track_media_file ms v.path true
          v.original_path with ⟨mid, ms2⟩
      cases hmid : mid with
      | none =>
        obtain ⟨newRows, h1, h2, h3⟩ := ih ms2 rows (pos + 1)
        refine ⟨newRows, ?_, h2, ?_⟩
        · simpa [DownloadPlaylistUseCase.trackLoop, hpe, htrack, hmid]
            using h1
        · intro r hr
          obtain ⟨ha, hb, hc⟩ := h3 r hr
          refine ⟨ha, by omega, ?_⟩
          simp only [List.length_cons]
          omega
      | some id =>
        rcases hlink : PlaylistTracker.link_video_to_playlist rows pid id pos
          with ⟨ok, rows2⟩
        obtain ⟨newRows, h1, h2, h3⟩ := ih ms2 rows2 (pos + 1)
        have hresult :
            (DownloadPlaylistUseCase.trackLoop pid (v :: vs) ms rows
              pos).2 = rows2 ++ newRows := by
          simpa [DownloadPlaylistUseCase.trackLoop, hpe, htrack, hmid,
            hlink] using h1
        by_cases hdup : (rows.any (fun r =>
            r.playlist_id == pid && r.position == pos)) = true
        · have hrows2 : rows2 = rows := by
            have h := hlink
            simp [PlaylistTracker.link_video_to_playlist,
              add_video_to_playlist, hdup] at h
            exact h.2.symm
          refine ⟨newRows, by rwa [hrows2] at hresult, h2, ?_⟩
          intro r hr
          obtain ⟨ha, hb, hc⟩ := h3 r hr
          refine ⟨ha, by omega, ?_⟩
          simp only [List.length_cons]
          omega
        · have hrows2 : rows2 = rows ++
              ([⟨pid, id, pos⟩] : List PlaylistVideoRow) := by
            have h := hlink
            simp [PlaylistTracker.link_video_to_playlist,
              add_video_to_playlist, hdup] at h
            exact h.2.symm
          refine ⟨(⟨pid, id, pos⟩ : PlaylistVideoRow) :: newRows, ?_, ?_, ?_⟩
          · rw [hresult, hrows2, List.append_assoc]
            rfl
          · rw [List.map_cons, List.pairwise_cons]
            refine ⟨?_, h2⟩
            intro q hq
            obtain ⟨x, hx, hxq⟩ := List.mem_map.mp hq
            obtain ⟨_, hb, _⟩ := h3 x hx
            have hxq2 : x.position = q := hxq
            show pos < q
            omega
          · intro r hr
            rcases List.mem_cons.mp hr with rfl | hr
            · refine ⟨rfl, le_refl _, ?_⟩
              simp only [List.length_cons]
              omega
            · obtain ⟨ha, hb, hc⟩ := h3 r hr
              refine ⟨ha, by omega, ?_⟩
              simp only [List.length_cons]
              omega

/-- When every entry exists, every entry is linked: the run appends
exactly the positions `pos, pos+1, …` in order. -/
theorem trackLoop_all_success (vs : List PlaylistEntry) (pid : Nat) :
    ∀ (ms : MediaRepoState) (rows : List PlaylistVideoRow) (pos : Nat),
    (∀ v ∈ vs, v.pathExists = true) →
    (∀ r ∈ rows, r.playlist_id = pid → r.position < pos) →
    ((DownloadPlaylistUseCase.trackLoop pid vs ms rows pos).2.map
        (fun r => r.position))
      = rows.map (fun r => r.position) ++ List.range' pos vs.length := by
  induction vs with
  | nil =>
    intro ms rows pos _ _
    simp [DownloadPlaylistUseCase.trackLoop]
  | cons v vs ih =>
    intro ms rows pos hall hinv
    have hpe : v.pathExists = true := hall v (List.mem_cons_self v vs)
    rcases htrack : MediaFileTracker.track_media_file ms v.path true
        v.original_path with ⟨mid, ms2⟩
    obtain ⟨r0, hr0, _⟩ := track_media_file_post ms v.path v.original_path
    have hmid : mid = some r0.id := by
      rw [htrack] at hr0
      exact hr0
    have hdup : (rows.any (fun r =>
        r.playlist_id == pid && r.position == pos)) = false := by
      rw [List.any_eq_false]
      intro r hr
      simp only [Bool.and_eq_true, beq_iff_eq, not_and]
      intro hpid hpos
      exact absurd hpos (by have := hinv r hr hpid; omega)
    have hrows2 : PlaylistTracker.link_video_to_playlist rows pid r0.id pos
        = (true, rows ++ ([⟨pid, r0.id, pos⟩] : List PlaylistVideoRow)) := by
      simp [PlaylistTracker.link_video_to_playlist, add_video_to_playlist,
        hdup]
    have hstep :
        (DownloadPlaylistUseCase.trackLoop pid (v :: vs) ms rows pos).2
          = (DownloadPlaylistUseCase.trackLoop pid vs ms2
              (rows ++ ([⟨pid, r0.id, pos⟩] : List PlaylistVideoRow))
              (pos + 1)).2 := by
      simp [DownloadPlaylistUseCase.trackLoop, hpe, htrack, hmid, hrows2]
    rw [hstep, ih ms2 _ (pos + 1)
      (fun w hw => hall w (List.mem_cons_of_mem v hw)) ?_]
    · rw [List.map_append, List.length_cons,
        List.range'_succ pos vs.length 1, List.append_assoc]
      rfl
    · intro r hr hpid
      rcases List.mem_append.mp hr with hr | hr
      · have := hinv r hr hpid
        omega
      · rcases List.mem_singleton.mp hr with rfl
        simp

/-- Claim C8, counterexample: a three-entry ingest whose second entry's
file is missing links rows at positions 1 and 3 only — the linked
positions are not the dense set `{1..n}` (two rows, but position 2 is
absent and position 3 is present). -/
theorem c8_playlist_positions_counterexample :
    ((DownloadPlaylistUseCase._track_playlist_videos 1
        [⟨"/a.mp4", true, none⟩, ⟨"/b.mp4", false, none⟩,
          ⟨"/c.mp4", true, none⟩] ⟨[], 0⟩ []).2.map (fun r => r.position)
      = [1, 3]) ∧
    ((DownloadPlaylistUseCase._track_playlist_videos 1
        [⟨"/a.mp4", true, none⟩, ⟨"/b.mp4", false, none⟩,
          ⟨"/c.mp4", true, none⟩] ⟨[], 0⟩ []).2.length = 2) ∧
    ¬ ((DownloadPlaylistUseCase._track_playlist_videos 1
        [⟨"/a.mp4", true, none⟩, ⟨"/b.mp4", false, none⟩,
          ⟨"/c.mp4", true, none⟩] ⟨[], 0⟩ []).2.map (fun r => r.position)
      = [1, 2]) := by
  decide

/-- Claim C8 as amended: after an ingest run the linked
`(playlist_id, position)` pairs are pairwise distinct (positions strictly
increase) and every position equals its entry's 1-based index in the
run's entry list, hence lies in `{1..n}`; entries that fail or are
skipped leave gaps, and the positions are exactly the dense `{1..n}`
when every entry is linked (e.g. when all entry files exist). -/
theorem c8_playlist_positions_amended (pid : Nat)
    (entries : List PlaylistEntry) (ms : MediaRepoState) :
    (((DownloadPlaylistUseCase._track_playlist_videos pid entries ms
        []).2.map (fun r => r.position)).Pairwise (· < ·)) ∧
    (∀ r ∈ (DownloadPlaylistUseCase._track_playlist_videos pid entries ms
        []).2, r.playlist_id = pid ∧ 1 ≤ r.position ∧
          r.position ≤ entries.length) ∧
    ((∀ v ∈ entries, v.pathExists = true) →
      ((DownloadPlaylistUseCase._track_playlist_videos pid entries ms
          []).2.map (fun r => r.position)) = List.range' 1 entries.length)
    := by
  obtain ⟨newRows, h1, h2, h3⟩ := trackLoop_appends entries pid ms [] 1
  refine ⟨?_, ?_, ?_⟩
  · rw [DownloadPlaylistUseCase._track_playlist_videos, h1]
    simpa using h2
  · intro r hr
    rw [DownloadPlaylistUseCase._track_playlist_videos, h1] at hr
    obtain ⟨ha, hb, hc⟩ := h3 r (by simpa using hr)
    exact ⟨ha, hb, by omega⟩
  · intro hall
    rw [DownloadPlaylistUseCase._track_playlist_videos,
      trackLoop_all_success entries pid ms [] 1 hall (by simp)]
    simp

/-- Witness for the amended C8: a fully successful two-entry run links
exactly positions 1 and 2. -/
theorem c8_playlist_positions_amended_witness :
    ((DownloadPlaylistUseCase._track_playlist_videos 1
        [⟨"/a.mp4", true, none⟩, ⟨"/c.mp4", true, none⟩] ⟨[], 0⟩
        []).2.map (fun r => r.position)) = List.range' 1 2 :=
  (c8_playlist_positions_amended 1
      [⟨"/a.mp4", true, none⟩, ⟨"/c.mp4", true, none⟩] ⟨[], 0⟩).2.2
    (by decide)

end Spatelier
